import Mathlib

/-!
Verification of the hybrid re-ranking and scoring engine of the
`search_server` module (`server.py`, `brand_mapping_data.py`).

The Python source is shallowly embedded: candidate dictionaries become
structures, floats become exact rationals (`ℚ`), Python strings become
Lean strings, and the stateful bonus accumulation of
`calculate_final_score` becomes explicit per-signal contribution
functions whose sum is the accumulated `bonus_score`.
-/

namespace MonoLog

/-- Python truthiness of an optional string argument (`if user_brand:` is
false both for `None` and for the empty string). -/
def truthy : Option String → Bool
  | none => false
  | some s => !(s == "")

/-- Python substring containment `needle in hay` for strings. -/
def strIn (needle hay : String) : Bool :=
  hay.toList.tails.any (fun t => needle.toList.isPrefixOf t)

/-- Python `str.lower()`: character-wise lowering.  (Lean's
`Char.toLower` lowers ASCII letters; Python's full-Unicode case mapping
beyond ASCII is not modelled.) -/
def pyLower (s : String) : String := String.mk (s.data.map Char.toLower)

/-- Helper for `pySplit`: split a character list on whitespace runs,
accumulating the current (reversed) word. -/
def splitWsAux : List Char → List Char → List String
  | [], acc => if acc.isEmpty then [] else [String.mk acc.reverse]
  | c :: cs, acc =>
    if c.isWhitespace then
      if acc.isEmpty then splitWsAux cs []
      else String.mk acc.reverse :: splitWsAux cs []
    else splitWsAux cs (c :: acc)

/-- Python `str.split()` with no argument: split on whitespace runs,
dropping empty pieces. -/
def pySplit (s : String) : List String := splitWsAux s.data []

/-- Python `' '.join(texts)` (line 155 of `server.py`). -/
def pyJoin (l : List String) : String :=
  String.intercalate " " l

/-- Value of a decimal digit character. -/
def digitVal (c : Char) : Nat := c.toNat - 48

/-- Decimal value of a digit list. -/
def digitsVal (l : List Char) : Nat := l.foldl (fun n c => n * 10 + digitVal c) 0

/-- Python `str.strip()` on a character list. -/
def pyTrimChars (l : List Char) : List Char :=
  ((l.dropWhile Char.isWhitespace).reverse.dropWhile Char.isWhitespace).reverse

/-- Python `int(s)` on a string: optional surrounding whitespace, an
optional sign, then decimal digits; `none` models a raised `ValueError`
(caught by the `except: pass` around the price filter).  Digit-group
underscores, accepted by Python, are not modelled. -/
def pyInt (s : String) : Option Int :=
  match pyTrimChars s.data with
  | [] => none
  | '-' :: ds =>
    if !ds.isEmpty && ds.all Char.isDigit then some (-(digitsVal ds : Int)) else none
  | '+' :: ds =>
    if !ds.isEmpty && ds.all Char.isDigit then some ((digitsVal ds : Nat) : Int) else none
  | ds =>
    if ds.all Char.isDigit then some ((digitsVal ds : Nat) : Int) else none

/-!
`similarity(a, b)` (`server.py`, lines 28-30) returns
`SequenceMatcher(None, a.lower(), b.lower()).ratio()`.  The matcher is
embedded below following CPython's `difflib` with no junk: the
`autojunk` popular-element heuristic, which only activates when the
second string has at least 200 characters, is not modelled.
-/

/-- `b2j`: the (increasing) list of positions of character `c` in `b`. -/
def b2j (b : List Char) (c : Char) : List Nat :=
  (b.enum.filter (fun p => p.2 == c)).map Prod.fst

/-- `j2len.get(k, 0)` on the association-list representation of the
`j2len` dictionary of `find_longest_match`. -/
def j2get (m : List (Nat × Nat)) (k : Nat) : Nat :=
  match m.find? (fun p => p.1 == k) with
  | some p => p.2
  | none => 0

/-- One iteration of the inner loop of `find_longest_match` at row `i`,
column `j`: extend the run ending at `(i-1, j-1)` (looked up in the
previous row `m`), record it in the new row, and update the best block
when strictly longer (`if k > bestsize`).  `i + 1 - k` and `j + 1 - k`
are Python's `i - k + 1` and `j - k + 1`. -/
def flmStep (m : List (Nat × Nat)) (i : Nat)
    (acc : List (Nat × Nat) × (Nat × Nat × Nat)) (j : Nat) :
    List (Nat × Nat) × (Nat × Nat × Nat) :=
  let k := (if j = 0 then 0 else j2get m (j - 1)) + 1
  ((j, k) :: acc.1,
   if acc.2.2.2 < k then (i + 1 - k, j + 1 - k, k) else acc.2)

/-- One iteration of the outer loop of `find_longest_match` for row `i`:
fold the inner loop over the positions of `a[i]` in `b` restricted to
`[blo, bhi)` (the `continue`/`break` guards), starting from an empty new
row.  For the in-range rows actually visited, `a.getD i 'a'` is `a[i]`. -/
def flmOuter (a b : List Char) (blo bhi : Nat)
    (st : List (Nat × Nat) × (Nat × Nat × Nat)) (i : Nat) :
    List (Nat × Nat) × (Nat × Nat × Nat) :=
  let js := (b2j b (a.getD i 'a')).filter (fun j => decide (blo ≤ j) && decide (j < bhi))
  js.foldl (flmStep st.1 i) ([], st.2)

/-- `find_longest_match(alo, ahi, blo, bhi)` with no junk: fold the rows
`alo, …, ahi-1`, starting from best block `(alo, blo, 0)`.  (The final
junk-extension `while` loops of CPython are no-ops without junk.) -/
def findLongestMatch (a b : List Char) (alo ahi blo bhi : Nat) : Nat × Nat × Nat :=
  ((List.range' alo (ahi - alo)).foldl (flmOuter a b blo bhi) ([], (alo, blo, 0))).2

/-- Invariant of a `j2len` row supposedly produced while processing rows
below `t`: every recorded run has positive length and fits above `alo`
(rows) and `blo` (columns). -/
def RowInv (alo blo t : Nat) (m : List (Nat × Nat)) : Prop :=
  ∀ p ∈ m, 1 ≤ p.2 ∧ p.2 + alo ≤ t ∧ p.2 + blo ≤ p.1 + 1

/-- Invariant of the best block `(i, j, k)`: either still the initial
`(alo, blo, 0)`-style zero block, or a genuine block lying inside the
region `[alo, ahi) × [blo, bhi)`. -/
def BestInv (alo ahi blo bhi : Nat) (r : Nat × Nat × Nat) : Prop :=
  r.2.2 = 0 ∨
    (1 ≤ r.2.2 ∧ alo ≤ r.1 ∧ r.1 + r.2.2 ≤ ahi ∧ blo ≤ r.2.1 ∧ r.2.1 + r.2.2 ≤ bhi)

lemma j2get_inv {alo blo t : Nat} {m : List (Nat × Nat)}
    (hm : RowInv alo blo t m) (q : Nat) :
    j2get m q = 0 ∨
      (1 ≤ j2get m q ∧ j2get m q + alo ≤ t ∧ j2get m q + blo ≤ q + 1) :=
  by
  rcases hfind : m.find? (fun p => p.1 == q) with _ | pr
  · left
    unfold j2get
    rw [hfind]
  · right
    have hmem : pr ∈ m := List.mem_of_find?_eq_some hfind
    have hq : pr.1 = q := by
      have hpq := List.find?_some hfind
      simpa using hpq
    have hfacts := hm pr hmem
    have hval : j2get m q = pr.2 := by unfold j2get; rw [hfind]
    rw [hval]
    omega

/-- The run length computed by `flmStep` at column `j` of row `i`. -/
lemma flmK_facts {alo blo i : Nat} {m : List (Nat × Nat)}
    (hm : RowInv alo blo i m) (hi₁ : alo ≤ i) {j : Nat} (hbloj : blo ≤ j) :
    1 ≤ (if j = 0 then 0 else j2get m (j - 1)) + 1 ∧
      ((if j = 0 then 0 else j2get m (j - 1)) + 1) + alo ≤ i + 1 ∧
      ((if j = 0 then 0 else j2get m (j - 1)) + 1) + blo ≤ j + 1 :=
  by
  by_cases hj0 : j = 0
  · rw [if_pos hj0]; omega
  · rw [if_neg hj0]
    rcases j2get_inv hm (j - 1) with hz | ⟨hv1, hv2, hv3⟩
    · rw [hz]; omega
    · omega

lemma bestInv_update (alo ahi blo bhi i j K : Nat) (old : Nat × Nat × Nat)
    (hK1 : 1 ≤ K) (hKa : K + alo ≤ i + 1) (hKb : K + blo ≤ j + 1)
    (hi : i < ahi) (hj : j < bhi)
    (hold : BestInv alo ahi blo bhi old) :
    BestInv alo ahi blo bhi (if old.2.2 < K then (i + 1 - K, j + 1 - K, K) else old) :=
  by
  split
  · have h2 : 1 ≤ K ∧ alo ≤ i + 1 - K ∧ (i + 1 - K) + K ≤ ahi ∧
        blo ≤ j + 1 - K ∧ (j + 1 - K) + K ≤ bhi := by
      refine ⟨hK1, ?_, ?_, ?_, ?_⟩ <;> omega
    exact Or.inr h2
  · exact hold

lemma flmStep_fold_inv (alo ahi blo bhi : Nat) (m : List (Nat × Nat)) (i : Nat)
    (hi₁ : alo ≤ i) (hi₂ : i < ahi) (hm : RowInv alo blo i m) :
    ∀ (js : List Nat) (acc : List (Nat × Nat) × (Nat × Nat × Nat)),
      (∀ j ∈ js, blo ≤ j ∧ j < bhi) →
      RowInv alo blo (i + 1) acc.1 →
      BestInv alo ahi blo bhi acc.2 →
      RowInv alo blo (i + 1) (js.foldl (flmStep m i) acc).1 ∧
        BestInv alo ahi blo bhi (js.foldl (flmStep m i) acc).2 :=
  by
  intro js
  induction js with
  | nil => intro acc _ h1 h2; exact ⟨h1, h2⟩
  | cons j js ih =>
    intro acc hjs h1 h2
    have hj : blo ≤ j ∧ j < bhi := hjs j (List.mem_cons_self j js)
    have hK := flmK_facts hm hi₁ hj.1
    rw [List.foldl_cons]
    apply ih
    · intro x hx; exact hjs x (List.mem_cons_of_mem j hx)
    · -- row invariant for the extended row
      intro p hp
      simp only [flmStep] at hp
      rcases List.mem_cons.mp hp with hpe | hpm
      · rw [hpe]; exact hK
      · exact h1 p hpm
    · -- best invariant after the possible update
      show BestInv alo ahi blo bhi (flmStep m i acc j).2
      simp only [flmStep]
      exact bestInv_update alo ahi blo bhi i j _ acc.2 hK.1 hK.2.1 hK.2.2 hi₂ hj.2 h2

lemma flmOuter_fold_inv (a b : List Char) (alo ahi blo bhi : Nat) :
    ∀ (n s : Nat) (st : List (Nat × Nat) × (Nat × Nat × Nat)),
      alo ≤ s → s + n ≤ ahi →
      RowInv alo blo s st.1 → BestInv alo ahi blo bhi st.2 →
      BestInv alo ahi blo bhi
        (((List.range' s n).foldl (flmOuter a b blo bhi) st).2) :=
  by
  intro n
  induction n with
  | zero => intro s st _ _ _ h2; simpa using h2
  | succ n ih =>
    intro s st hs hsn h1 h2
    rw [List.range'_succ, List.foldl_cons]
    have hstep := flmStep_fold_inv alo ahi blo bhi st.1 s hs (by omega) h1
      ((b2j b (a.getD s 'a')).filter (fun j => decide (blo ≤ j) && decide (j < bhi)))
      ([], st.2)
      (by
        intro j hjmem
        have h := (List.mem_filter.mp hjmem).2
        rw [Bool.and_eq_true, decide_eq_true_eq, decide_eq_true_eq] at h
        exact h)
      (by intro p hp; simp at hp)
      h2
    apply ih (s + 1) _ (by omega) (by omega)
    · -- row invariant carries to the next row index
      intro p hp
      have := hstep.1 p hp
      omega
    · exact hstep.2

lemma findLongestMatch_bounds (a b : List Char) (alo ahi blo bhi : Nat) :
    BestInv alo ahi blo bhi (findLongestMatch a b alo ahi blo bhi) :=
  by
  unfold findLongestMatch
  by_cases hle : alo ≤ ahi
  · apply flmOuter_fold_inv a b alo ahi blo bhi (ahi - alo) alo
    · exact Nat.le_refl alo
    · omega
    · intro p hp; simp at hp
    · exact Or.inl rfl
  · have h0 : ahi - alo = 0 := by omega
    rw [h0]
    simp only [List.range'_zero, List.foldl_nil]
    exact Or.inl rfl

/-- Total size of the matching blocks found by `get_matching_blocks`
inside the region `[alo, ahi) × [blo, bhi)`: the recursive
divide-at-the-longest-match process.  (CPython drives it with an
explicit queue; the total is the same.) -/
def matchesIn (a b : List Char) (alo ahi blo bhi : Nat) : Nat :=
  if _hk : (findLongestMatch a b alo ahi blo bhi).2.2 = 0 then 0
  else
    (findLongestMatch a b alo ahi blo bhi).2.2 +
      ((if _hl : alo < (findLongestMatch a b alo ahi blo bhi).1 ∧
            blo < (findLongestMatch a b alo ahi blo bhi).2.1 then
          matchesIn a b alo (findLongestMatch a b alo ahi blo bhi).1 blo
            (findLongestMatch a b alo ahi blo bhi).2.1
        else 0) +
        (if _hr : (findLongestMatch a b alo ahi blo bhi).1 +
              (findLongestMatch a b alo ahi blo bhi).2.2 < ahi ∧
            (findLongestMatch a b alo ahi blo bhi).2.1 +
              (findLongestMatch a b alo ahi blo bhi).2.2 < bhi then
          matchesIn a b
            ((findLongestMatch a b alo ahi blo bhi).1 +
              (findLongestMatch a b alo ahi blo bhi).2.2) ahi
            ((findLongestMatch a b alo ahi blo bhi).2.1 +
              (findLongestMatch a b alo ahi blo bhi).2.2) bhi
        else 0))
termination_by (ahi - alo) + (bhi - blo)
decreasing_by
  · rcases findLongestMatch_bounds a b alo ahi blo bhi with hz | hbnd
    · omega
    · omega
  · rcases findLongestMatch_bounds a b alo ahi blo bhi with hz | hbnd
    · omega
    · omega

lemma matchesIn_le (a b : List Char) :
    ∀ (N alo ahi blo bhi : Nat), (ahi - alo) + (bhi - blo) ≤ N →
      matchesIn a b alo ahi blo bhi ≤ min (ahi - alo) (bhi - blo) :=
  by
  intro N
  induction N with
  | zero =>
    intro alo ahi blo bhi hN
    rw [matchesIn.eq_def]
    rcases findLongestMatch_bounds a b alo ahi blo bhi with hz | hbnd
    · rw [dif_pos hz]; omega
    · rw [dif_neg (by omega)]
      omega
  | succ N ih =>
    intro alo ahi blo bhi hN
    rw [matchesIn.eq_def]
    rcases findLongestMatch_bounds a b alo ahi blo bhi with hz | hbnd
    · rw [dif_pos hz]; omega
    · obtain ⟨hk1, hia, hka, hjb, hkb⟩ := hbnd
      rw [dif_neg (by omega)]
      have hL : (if hl : alo < (findLongestMatch a b alo ahi blo bhi).1 ∧
            blo < (findLongestMatch a b alo ahi blo bhi).2.1 then
          matchesIn a b alo (findLongestMatch a b alo ahi blo bhi).1 blo
            (findLongestMatch a b alo ahi blo bhi).2.1
        else 0) ≤ min ((findLongestMatch a b alo ahi blo bhi).1 - alo)
            ((findLongestMatch a b alo ahi blo bhi).2.1 - blo) := by
        split
        · next hl => exact ih alo _ blo _ (by omega)
        · omega
      have hR : (if hr : (findLongestMatch a b alo ahi blo bhi).1 +
              (findLongestMatch a b alo ahi blo bhi).2.2 < ahi ∧
            (findLongestMatch a b alo ahi blo bhi).2.1 +
              (findLongestMatch a b alo ahi blo bhi).2.2 < bhi then
          matchesIn a b
            ((findLongestMatch a b alo ahi blo bhi).1 +
              (findLongestMatch a b alo ahi blo bhi).2.2) ahi
            ((findLongestMatch a b alo ahi blo bhi).2.1 +
              (findLongestMatch a b alo ahi blo bhi).2.2) bhi
        else 0) ≤
          min (ahi - ((findLongestMatch a b alo ahi blo bhi).1 +
              (findLongestMatch a b alo ahi blo bhi).2.2))
            (bhi - ((findLongestMatch a b alo ahi blo bhi).2.1 +
              (findLongestMatch a b alo ahi blo bhi).2.2)) := by
        split
        · next hr => exact ih _ ahi _ bhi (by omega)
        · omega
      omega

/-- `SequenceMatcher.ratio()` on the two character lists: `2·M/T` where
`M` is the total matched size and `T` the total length, and `1.0` when
both are empty. -/
def pyRatio (la lb : List Char) : ℚ :=
  if la.length + lb.length > 0 then
    2 * (matchesIn la lb 0 la.length 0 lb.length : ℚ) /
      ((la.length + lb.length : Nat) : ℚ)
  else 1

/-- `similarity(a, b)` (`server.py`, lines 28-30):
`SequenceMatcher(None, a.lower(), b.lower()).ratio()`. -/
def similarity (a b : String) : ℚ :=
  pyRatio (pyLower a).toList (pyLower b).toList

lemma pyRatio_mem_unit (la lb : List Char) :
    0 ≤ pyRatio la lb ∧ pyRatio la lb ≤ 1 :=
  by
  have hm := matchesIn_le la lb (la.length + lb.length) 0 la.length 0 lb.length (by omega)
  unfold pyRatio
  by_cases ht : la.length + lb.length > 0
  · rw [if_pos ht]
    constructor
    · positivity
    · rw [div_le_one (by exact_mod_cast ht)]
      have h2 : 2 * matchesIn la lb 0 la.length 0 lb.length ≤ la.length + lb.length := by
        omega
      exact_mod_cast h2
  · rw [if_neg ht]
    exact ⟨zero_le_one, le_refl 1⟩

lemma similarity_mem_unit (a b : String) :
    0 ≤ similarity a b ∧ similarity a b ≤ 1 :=
  pyRatio_mem_unit _ _

/-- The `BRAND_MAPPING` table of `brand_mapping_data.py` as an
association list (same key/value pairs, same order). -/
def BRAND_MAPPING : List (String × String) :=
  [("nissin", "日清"), ("cup noodle", "日清"), ("ufo", "日清"),
   ("donbei", "日清"), ("どん兵衛", "日清"), ("닛신", "日清"),
   ("닛신식품", "日清"),
   ("toyo suisan", "東洋水産"), ("maruchan", "東洋水産"),
   ("red fox", "東洋水産"), ("green tanuki", "東洋水産"),
   ("마루짱", "東洋水産"), ("토요수이산", "東洋水産"), ("동양수산", "東洋水産"),
   ("sanyo foods", "サンヨー食品"), ("sapporo ichiban", "サンヨー食品"),
   ("cup star", "サンヨー食品"), ("삿포로이치반", "サンヨー食品"),
   ("산요식품", "サンヨー食品"),
   ("myojo", "明星食品"), ("ippei", "明星食品"), ("charumera", "明星食品"),
   ("ippei-chan", "明星食品"), ("묘조", "明星食品"), ("명성식품", "明星食品"),
   ("잇페이짱", "明星食品"),
   ("acecook", "エースコック"), ("super cup", "エースコック"),
   ("에이스쿡", "エースコック"), ("슈퍼컵", "エースコック"),
   ("maruka", "まるか食品"), ("peyoung", "まるか食品"),
   ("maruka foods", "まるか食品"), ("페양그", "まるか食品"),
   ("마루카", "まるか食品"),
   ("yamadai", "ヤマダイ"), ("new touch", "ヤマダイ"),
   ("sugomen", "ヤマダイ"), ("야마다이", "ヤマダイ"), ("뉴터치", "ヤマダイ"),
   ("nongshim", "農心"), ("shin ramyun", "農心"), ("neoguri", "農心"),
   ("농심", "農心"), ("신라면", "農心"), ("너구리", "農心"),
   ("samyang", "三養"), ("buldak", "三養"), ("삼양", "三養"),
   ("불닭", "三養"), ("불닭볶음면", "三養"),
   ("ajinomoto", "アジノモト"), ("yumyum", "アジノモト"),
   ("아지노모토", "アジノモト"),
   ("ichiran", "一蘭"), ("이치란", "一蘭"),
   ("marutai", "マルタイ"), ("마루타이", "マルタイ"),
   ("higashimaru", "ヒガシマル"), ("히가시마루", "ヒガシマル"),
   ("kokubu", "国分"), ("tabete", "国分"), ("코쿠부", "国分"),
   ("타베테", "国分"),
   ("tokushima", "徳島製粉"), ("kin-chan", "徳島製粉"),
   ("kinchan", "徳島製粉"), ("도쿠시마", "徳島製粉"), ("킨짱", "徳島製粉"),
   ("nagatanien", "永谷園"), ("나가타니엔", "永谷園"),
   ("masumoto", "桝元"), ("karamen", "桝元"), ("마스모토", "桝元")]

/-- `get_official_maker_name(query)` = `BRAND_MAPPING.get(query.lower(), query)`
(`brand_mapping_data.py`, line 134).  The `if not query: return None`
branch is unreachable from `calculate_final_score`, which only calls it
under `if user_brand:`. -/
def get_official_maker_name (query : String) : String :=
  match BRAND_MAPPING.find? (fun p => p.1 == pyLower query) with
  | some p => p.2
  | none => query

/-- `ScoringWeights`: the configuration dictionary built by
`load_weights` (`server.py`, lines 67-94).  Float-valued weights are
rationals; the six threshold entries are integers (`_get_int`). -/
structure Weights where
  base_score_weight : ℚ
  brand_bonus : ℚ
  name_bonus : ℚ
  ocr_threshold_minimum : ℤ
  ocr_threshold_fair : ℤ
  ocr_threshold_good : ℤ
  ocr_bonus_poor : ℚ
  ocr_bonus_fair : ℚ
  ocr_bonus_good : ℚ
  price_bonus_10pct : ℚ
  price_bonus_20pct : ℚ
  price_threshold_10pct : ℤ
  price_threshold_20pct : ℤ
  similarity_threshold : ℚ

/-- `weights["max_bonus"]` (lines 87-92): sum of the largest attainable
bonus of each signal. -/
def Weights.max_bonus (w : Weights) : ℚ :=
  w.brand_bonus + w.name_bonus + w.ocr_bonus_good + w.price_bonus_10pct

/-- The default weight configuration (lines 70-83), in field order:
base 0.3; brand 0.15; name 0.15; OCR thresholds 10/30/60; OCR bonuses
0/0.025/0.05; price bonuses 0.10/0.05; price thresholds 10/20;
similarity threshold 0.8. -/
def defaultWeights : Weights :=
  ⟨0.3, 0.15, 0.15, 10, 30, 60, 0, 0.025, 0.05, 0.10, 0.05, 10, 20, 0.8⟩

/-- A candidate: the metadata dictionary of one retrieval hit, after
`item['similarity_score'] = 1 - cosine_dist` was assigned.  `maker` and
`name` model `item.get('maker', '')` and `item.get('name', '')` (a
missing field is the empty string); `price` models
`int(item.get('price', 0))`; `ocr_texts` models the `text` entries of
the successfully JSON-parsed `ocr_lines` field (malformed or absent data
degrades to the empty list, as in lines 410-417). -/
structure Item where
  similarity_score : ℚ
  maker : String
  name : String
  price : ℤ
  ocr_texts : List String

/-- The `user_inputs` dictionary: optional `name`, `price`, `brand`
form fields. -/
structure UserInputs where
  name : Option String
  price : Option String
  brand : Option String

/-- The `db_texts` token list of `_calculate_ocr_match_score`
(lines 400-417): whitespace tokens of `name`, then of `maker`, then of
each recognized text line. -/
def dbTexts (item : Item) : List String :=
  (if item.name ≠ "" then pySplit item.name else []) ++
    ((if item.maker ≠ "" then pySplit item.maker else []) ++
      item.ocr_texts.flatMap pySplit)

/-- `set(w.lower() for w in ws if w)` (lines 420-421).  A Python set
iterates in unspecified order; it is modelled as the deduplicated list,
which fixes one such order. -/
def toSet (ws : List String) : List String :=
  ((ws.filter (fun w => w ≠ "")).map pyLower).dedup

/-- The greedy one-to-one fuzzy pairing loop (lines 432-443): for each
remaining detected word of length ≥ 3, consume the first remaining
catalog word of length ≥ 3 whose similarity reaches the threshold.
Returns the number of pairs and the remaining catalog words. -/
def fuzzyStep (θ : ℚ) (st : Nat × List String) (dw : String) : Nat × List String :=
  if dw.length < 3 then st
  else
    match st.2.find? (fun dbw =>
        decide (3 ≤ dbw.length) && decide (θ ≤ similarity dw dbw)) with
    | some dbw => (st.1 + 1, st.2.erase dbw)
    | none => st

def fuzzyCount (θ : ℚ) (remDet remDb : List String) : Nat × List String :=
  remDet.foldl (fuzzyStep θ) (0, remDb)

/-- `overlap_count` (lines 424-443): exact set intersection plus greedy
fuzzy pairs among the non-exact remainders. -/
def ocrOverlap (w : Weights) (det db : List String) : Nat :=
  (det.filter (fun x => db.contains x)).length +
    (fuzzyCount w.similarity_threshold
      (det.filter (fun x => !db.contains x))
      (db.filter (fun x => !det.contains x))).1

/-- `match_ratio = overlap / total * 100 if total > 0 else 0`
(lines 457-460), with `total = max(len(detected_set), len(db_set))`. -/
def ocrRatio (w : Weights) (det db : List String) : ℚ :=
  if max det.length db.length > 0 then
    (ocrOverlap w det db : ℚ) / ((max det.length db.length : Nat) : ℚ) * 100
  else 0

/-- The tiered bonus cascade (lines 464-471). -/
def ocrTier (w : Weights) (ratio : ℚ) : ℚ :=
  if ratio ≥ (w.ocr_threshold_good : ℚ) then w.ocr_bonus_good
  else if ratio ≥ (w.ocr_threshold_fair : ℚ) then w.ocr_bonus_fair
  else if ratio ≥ (w.ocr_threshold_minimum : ℚ) then w.ocr_bonus_poor
  else 0

/-- `_calculate_ocr_match_score(detected_texts, item)` (lines 395-471):
returns `(match_ratio, bonus)`, and `(0.0, 0.0)` when either token set
is empty (line 454). -/
def ocrMatch (w : Weights) (texts : List String) (item : Item) : ℚ × ℚ :=
  if (toSet texts).isEmpty || (toSet (dbTexts item)).isEmpty then (0, 0)
  else
    (ocrRatio w (toSet texts) (toSet (dbTexts item)),
      ocrTier w (ocrRatio w (toSet texts) (toSet (dbTexts item))))

/-- The user-hint path of the brand filter (lines 140-151): resolve the
hint through the brand table and award `brand_bonus` when the resolved
keyword occurs in the candidate's maker field.  Returns the bonus
contributed so far and the `brand_matched` flag. -/
def brandHint (w : Weights) (item : Item) (ui : UserInputs) : ℚ × Bool :=
  if truthy ui.brand then
    if strIn (get_official_maker_name (ui.brand.getD "")) item.maker then
      (w.brand_bonus, true)
    else ((0 : ℚ), false)
  else ((0 : ℚ), false)

/-- The OCR fallback of the brand filter (lines 153-167), continuing
from the state left by the hint path. -/
def brandPass (w : Weights) (item : Item) (ui : UserInputs) (texts : List String) :
    ℚ × Bool :=
  if !(brandHint w item ui).2 && !texts.isEmpty then
    if item.maker ≠ "" && strIn item.maker (pyJoin texts) then
      ((brandHint w item ui).1 + w.brand_bonus, true)
    else if item.maker ≠ "" then
      match texts.find? (fun word =>
          decide (3 ≤ word.length) &&
            decide (w.similarity_threshold ≤ similarity word item.maker)) with
      | some _ => ((brandHint w item ui).1 + w.brand_bonus, true)
      | none => brandHint w item ui
    else brandHint w item ui
  else brandHint w item ui

/-- The user-hint path of the name filter (lines 171-176):
case-insensitive containment of the hint in the candidate name. -/
def nameHint (w : Weights) (item : Item) (ui : UserInputs) : ℚ × Bool :=
  if truthy ui.name then
    if strIn (pyLower (ui.name.getD "")) (pyLower item.name) then (w.name_bonus, true)
    else ((0 : ℚ), false)
  else ((0 : ℚ), false)

/-- The name filter (lines 169-193): the user-hint path, then the OCR
fallback — containment of the name in the joined detected text, or any
detected token of length ≥ 2 inside the name, or the first fuzzy match
of a token of length ≥ 3. -/
def namePass (w : Weights) (item : Item) (ui : UserInputs) (texts : List String) :
    ℚ × Bool :=
  if !(nameHint w item ui).2 && !texts.isEmpty then
    if item.name ≠ "" &&
        (strIn item.name (pyJoin texts) ||
          texts.any (fun word => decide (2 ≤ word.length) && strIn word item.name)) then
      ((nameHint w item ui).1 + w.name_bonus, true)
    else if item.name ≠ "" then
      match texts.find? (fun word =>
          decide (3 ≤ word.length) &&
            decide (w.similarity_threshold ≤ similarity word item.name)) with
      | some _ => ((nameHint w item ui).1 + w.name_bonus, true)
      | none => nameHint w item ui
    else nameHint w item ui
  else nameHint w item ui

/-- The price filter (lines 195-208): parse the hint, compute
`ratio = |target - actual| / target * 100` (`100` when the target is not
positive), and award the tier bonus; a parse failure contributes zero
(`except: pass`). -/
def pricePass (w : Weights) (item : Item) (ui : UserInputs) : ℚ :=
  if truthy ui.price then
    match pyInt (ui.price.getD "") with
    | none => 0
    | some target =>
      if (if target > 0 then ((|target - item.price| : ℤ) : ℚ) / (target : ℚ) * 100
          else 100) ≤ (w.price_threshold_10pct : ℚ) then w.price_bonus_10pct
      else if (if target > 0 then ((|target - item.price| : ℤ) : ℚ) / (target : ℚ) * 100
          else 100) ≤ (w.price_threshold_20pct : ℚ) then w.price_bonus_20pct
      else 0
  else 0

/-- The accumulated `bonus_score` of `calculate_final_score`
(lines 138-213): brand, name and price contributions plus the OCR bonus
(added only under `if detected_texts:`). -/
def bonusScore (w : Weights) (item : Item) (ui : UserInputs) (texts : List String) : ℚ :=
  (brandPass w item ui texts).1 + (namePass w item ui texts).1 +
    pricePass w item ui +
    (if texts.isEmpty then 0 else (ocrMatch w texts item).2)

/-- The normalization step (lines 215-223):
`final = base·bsw + bonus·(1 - bsw)`;
`max_possible = 1·bsw + max_bonus·(1 - bsw)`;
divide when `max_possible > 0` (else `0.0`) and clamp at `1.0`. -/
def normalizeScore (w : Weights) (base bonus : ℚ) : ℚ :=
  min
    (if 1 * w.base_score_weight + w.max_bonus * (1 - w.base_score_weight) > 0 then
      (base * w.base_score_weight + bonus * (1 - w.base_score_weight)) /
        (1 * w.base_score_weight + w.max_bonus * (1 - w.base_score_weight))
    else 0)
    1

/-- `calculate_final_score(item, user_inputs, detected_texts)`
(lines 133-223).  `detected_texts=None` behaves as the empty list
(`if detected_texts:`). -/
def calculate_final_score (w : Weights) (item : Item) (ui : UserInputs)
    (texts : List String) : ℚ :=
  normalizeScore w item.similarity_score (bonusScore w item ui texts)

/-- The per-signal `breakdown` dictionary of
`calculate_score_with_debug` (lines 230-236). -/
structure Breakdown where
  brand : ℚ
  name : ℚ
  price : ℚ
  ocr : ℚ
  ocr_ratio : ℚ

/-- `calculate_score_with_debug(item, user_inputs, detected_texts)`
(lines 226-361), up to the debug reason strings (observability only,
they never feed the returned score or breakdown numbers).  Its brand,
name and price blocks compute the same bonuses as the plain function
(they additionally track a `matched_word` for the reason string); its
OCR block differs: the bonus is added only under `if ocr_bonus > 0`
(line 339), while the ratio is always recorded (line 338).
`debugOcrAdd` is that OCR block (lines 332-341): the bonus actually
added to `bonus_score` by the debug variant. -/
def debugOcrAdd (w : Weights) (item : Item) (texts : List String) : ℚ :=
  if texts.isEmpty then 0
  else if (ocrMatch w texts item).2 > 0 then (ocrMatch w texts item).2 else 0

/-- The score and breakdown returned by `calculate_score_with_debug`
(see `debugOcrAdd` for the modelling notes; the `reasons` list of
strings is not modelled). -/
def calculate_score_with_debug (w : Weights) (item : Item) (ui : UserInputs)
    (texts : List String) : ℚ × Breakdown :=
  (normalizeScore w item.similarity_score
      ((brandPass w item ui texts).1 + (namePass w item ui texts).1 +
        pricePass w item ui + debugOcrAdd w item texts),
    ⟨(brandPass w item ui texts).1, (namePass w item ui texts).1,
      pricePass w item ui, debugOcrAdd w item texts,
      if texts.isEmpty then 0 else (ocrMatch w texts item).1⟩)

/-- `item['similarity_score'] = 1 - cosine_dist` (lines 557-558): the
raw vector similarity as a function of the provider's cosine
distance. -/
def similarityFromDistance (d : ℚ) : ℚ := 1 - d

/-- A scored candidate as it enters the final sort (line 599): its
`final_score` key plus the rest of the dictionary, opaque to the sort
and carried through unchanged. -/
structure Scored where
  payload : String
  final_score : ℚ

/-- The comparator realized by `candidates.sort(key=lambda x:
x['final_score'], reverse=True)`: CPython's sort is stable, and
`reverse=True` reverses the key comparison, not the list, so the
effective stable order is by `final_score` descending. -/
def scoreLE (x y : Scored) : Bool := decide (y.final_score ≤ x.final_score)

/-- Lines 598-600: stable sort by `final_score` descending, then
`candidates[:20]`. -/
def rankCandidates (cs : List Scored) : List Scored :=
  (cs.mergeSort scoreLE).take 20

/-- Modelled from the spec: "Stable sort of all scored candidates by
`final_score` descending; ties retain retrieval order ... Truncate to
the first 20" — sort the index-annotated list by the total order
"score descending, then original index ascending", drop the indices,
truncate. -/
def specLE (x y : Nat × Scored) : Bool :=
  decide (y.2.final_score < x.2.final_score) ||
    (decide (x.2.final_score = y.2.final_score) && decide (x.1 ≤ y.1))

/-- The spec-side ranking function (see `specLE`). -/
def rankSpec (cs : List Scored) : List Scored :=
  ((cs.enum.mergeSort specLE).map (fun p => p.2)).take 20

/-! Case analyses of the per-signal contributions. -/

lemma brandHint_cases (w : Weights) (item : Item) (ui : UserInputs) :
    brandHint w item ui = ((0 : ℚ), false) ∨ brandHint w item ui = (w.brand_bonus, true) :=
  by
  unfold brandHint
  split_ifs <;> simp

lemma brandPass_cases (w : Weights) (item : Item) (ui : UserInputs) (texts : List String) :
    (brandPass w item ui texts).1 = 0 ∨ (brandPass w item ui texts).1 = w.brand_bonus :=
  by
  unfold brandPass
  rcases hfind : texts.find? (fun word =>
      decide (3 ≤ word.length) &&
        decide (w.similarity_threshold ≤ similarity word item.maker)) with _ | word <;>
    rcases brandHint_cases w item ui with h | h <;>
      rw [h, hfind] <;> split_ifs <;> simp_all

lemma nameHint_cases (w : Weights) (item : Item) (ui : UserInputs) :
    nameHint w item ui = ((0 : ℚ), false) ∨ nameHint w item ui = (w.name_bonus, true) :=
  by
  unfold nameHint
  split_ifs <;> simp

lemma namePass_cases (w : Weights) (item : Item) (ui : UserInputs) (texts : List String) :
    (namePass w item ui texts).1 = 0 ∨ (namePass w item ui texts).1 = w.name_bonus :=
  by
  unfold namePass
  rcases hfind : texts.find? (fun word =>
      decide (3 ≤ word.length) &&
        decide (w.similarity_threshold ≤ similarity word item.name)) with _ | word <;>
    rcases nameHint_cases w item ui with h | h <;>
      rw [h, hfind] <;> split_ifs <;> simp_all

lemma pricePass_cases (w : Weights) (item : Item) (ui : UserInputs) :
    pricePass w item ui = 0 ∨ pricePass w item ui = w.price_bonus_10pct ∨
      pricePass w item ui = w.price_bonus_20pct :=
  by
  unfold pricePass
  split
  · split
    · left; rfl
    · split_ifs <;> tauto
  · left; rfl

lemma ocrTier_cases (w : Weights) (r : ℚ) :
    ocrTier w r = 0 ∨ ocrTier w r = w.ocr_bonus_poor ∨
      ocrTier w r = w.ocr_bonus_fair ∨ ocrTier w r = w.ocr_bonus_good :=
  by
  unfold ocrTier
  split_ifs <;> tauto

lemma ocrMatch_snd_cases (w : Weights) (texts : List String) (item : Item) :
    (ocrMatch w texts item).2 = 0 ∨ (ocrMatch w texts item).2 = w.ocr_bonus_poor ∨
      (ocrMatch w texts item).2 = w.ocr_bonus_fair ∨
      (ocrMatch w texts item).2 = w.ocr_bonus_good :=
  by
  unfold ocrMatch
  split_ifs with h
  · left; rfl
  · simpa using ocrTier_cases w (ocrRatio w (toSet texts) (toSet (dbTexts item)))

lemma ocrMatch_snd_nonneg (w : Weights) (texts : List String) (item : Item)
    (hp : 0 ≤ w.ocr_bonus_poor) (hf : 0 ≤ w.ocr_bonus_fair) (hg : 0 ≤ w.ocr_bonus_good) :
    0 ≤ (ocrMatch w texts item).2 :=
  by
  rcases ocrMatch_snd_cases w texts item with h | h | h | h <;> rw [h]
  exacts [hp, hf, hg]

lemma bonusScore_nonneg (w : Weights) (item : Item) (ui : UserInputs) (texts : List String)
    (hbb : 0 ≤ w.brand_bonus) (hnb : 0 ≤ w.name_bonus)
    (hp10 : 0 ≤ w.price_bonus_10pct) (hp20 : 0 ≤ w.price_bonus_20pct)
    (hop : 0 ≤ w.ocr_bonus_poor) (hof : 0 ≤ w.ocr_bonus_fair)
    (hog : 0 ≤ w.ocr_bonus_good) :
    0 ≤ bonusScore w item ui texts :=
  by
  unfold bonusScore
  have h1 : 0 ≤ (brandPass w item ui texts).1 := by
    rcases brandPass_cases w item ui texts with h | h <;> rw [h]
    exact hbb
  have h2 : 0 ≤ (namePass w item ui texts).1 := by
    rcases namePass_cases w item ui texts with h | h <;> rw [h]
    exact hnb
  have h3 : 0 ≤ pricePass w item ui := by
    rcases pricePass_cases w item ui with h | h | h <;> rw [h]
    exacts [hp10, hp20]
  have h4 : 0 ≤ (if texts.isEmpty then 0 else (ocrMatch w texts item).2) := by
    split
    · exact le_refl 0
    · exact ocrMatch_snd_nonneg w texts item hop hof hog
  linarith

lemma normalizeScore_mem_unit (w : Weights) (base bonus : ℚ)
    (hbase : 0 ≤ base) (hbonus : 0 ≤ bonus)
    (hw0 : 0 ≤ w.base_score_weight) (hw1 : w.base_score_weight ≤ 1) :
    0 ≤ normalizeScore w base bonus ∧ normalizeScore w base bonus ≤ 1 :=
  by
  unfold normalizeScore
  constructor
  · apply le_min
    · split_ifs with h
      · apply div_nonneg
        · have hbw : 0 ≤ 1 - w.base_score_weight := by linarith
          have hb1 := mul_nonneg hbase hw0
          have hb2 := mul_nonneg hbonus hbw
          linarith
        · linarith
      · exact le_refl 0
    · exact zero_le_one
  · exact min_le_right _ _

/-- C1: for every candidate whose base similarity lies in [0,1] and
every weight configuration with non-negative bonuses and
`base_score_weight ∈ [0,1]`, `calculate_final_score` returns a value
in [0,1]. -/
theorem final_score_mem_unit_interval (w : Weights) (item : Item) (ui : UserInputs)
    (texts : List String)
    (hbase0 : 0 ≤ item.similarity_score) (hbase1 : item.similarity_score ≤ 1)
    (hw0 : 0 ≤ w.base_score_weight) (hw1 : w.base_score_weight ≤ 1)
    (hbb : 0 ≤ w.brand_bonus) (hnb : 0 ≤ w.name_bonus)
    (hop : 0 ≤ w.ocr_bonus_poor) (hof : 0 ≤ w.ocr_bonus_fair)
    (hog : 0 ≤ w.ocr_bonus_good)
    (hp10 : 0 ≤ w.price_bonus_10pct) (hp20 : 0 ≤ w.price_bonus_20pct) :
    0 ≤ calculate_final_score w item ui texts ∧
      calculate_final_score w item ui texts ≤ 1 :=
  by
  unfold calculate_final_score
  exact normalizeScore_mem_unit w item.similarity_score (bonusScore w item ui texts)
    hbase0 (bonusScore_nonneg w item ui texts hbb hnb hp10 hp20 hop hof hog) hw0 hw1

/-- The default user-hints record `{"name": None, "price": None,
"brand": None}`. -/
def uiNone : UserInputs := ⟨none, none, none⟩

/-- A plain candidate used to instantiate hypotheses at concrete
inputs. -/
def itemHalf : Item := ⟨1/2, "", "", 0, []⟩

theorem final_score_mem_unit_interval_witness :
    (0 ≤ itemHalf.similarity_score ∧ itemHalf.similarity_score ≤ 1 ∧
        0 ≤ defaultWeights.base_score_weight ∧ defaultWeights.base_score_weight ≤ 1) ∧
      0 ≤ calculate_final_score defaultWeights itemHalf uiNone [] ∧
        calculate_final_score defaultWeights itemHalf uiNone [] ≤ 1 :=
  ⟨⟨by norm_num [itemHalf], by norm_num [itemHalf], by norm_num [defaultWeights],
      by norm_num [defaultWeights]⟩,
    final_score_mem_unit_interval defaultWeights itemHalf uiNone []
      (by norm_num [itemHalf]) (by norm_num [itemHalf])
      (by norm_num [defaultWeights]) (by norm_num [defaultWeights])
      (by norm_num [defaultWeights]) (by norm_num [defaultWeights])
      (by norm_num [defaultWeights]) (by norm_num [defaultWeights])
      (by norm_num [defaultWeights]) (by norm_num [defaultWeights])
      (by norm_num [defaultWeights])⟩

/-- C2: the final score is monotonically non-decreasing in the
accumulated bonus: if a second, otherwise-identical candidate's
`bonus_score` exceeds the first's by a non-negative bonus `d`, its
final score is at least the first's. -/
theorem final_score_monotone_in_bonus (w : Weights) (item1 item2 : Item)
    (ui : UserInputs) (texts : List String) (d : ℚ)
    (hw0 : 0 ≤ w.base_score_weight) (hw1 : w.base_score_weight ≤ 1)
    (hbb : 0 ≤ w.brand_bonus) (hnb : 0 ≤ w.name_bonus)
    (hop : 0 ≤ w.ocr_bonus_poor) (hof : 0 ≤ w.ocr_bonus_fair)
    (hog : 0 ≤ w.ocr_bonus_good)
    (hp10 : 0 ≤ w.price_bonus_10pct) (hp20 : 0 ≤ w.price_bonus_20pct)
    (hd : 0 ≤ d)
    (hbase : item2.similarity_score = item1.similarity_score)
    (hbonus : bonusScore w item2 ui texts = bonusScore w item1 ui texts + d) :
    calculate_final_score w item1 ui texts ≤ calculate_final_score w item2 ui texts :=
  by
  unfold calculate_final_score normalizeScore
  rw [hbase, hbonus]
  have hbw : 0 ≤ 1 - w.base_score_weight := by linarith
  apply min_le_min _ (le_refl 1)
  split_ifs with h
  · rw [div_le_div_iff_of_pos_right h]
    nlinarith [mul_nonneg hd hbw]
  · exact le_refl 0

/-- Candidate whose maker field does not contain the resolved brand
keyword. -/
def itemOther : Item := ⟨1/2, "ABC", "", 0, []⟩

/-- Candidate whose maker field contains the brand keyword resolved
from the hint "nissin". -/
def itemNissin : Item := ⟨1/2, "日清食品", "", 0, []⟩

/-- User hints with only the brand hint "nissin". -/
def uiNissin : UserInputs := ⟨none, none, some "nissin"⟩

lemma bonus_gap_nissin :
    bonusScore defaultWeights itemNissin uiNissin [] =
      bonusScore defaultWeights itemOther uiNissin [] + 3/20 :=
  by
  have h1 : bonusScore defaultWeights itemNissin uiNissin [] =
      defaultWeights.brand_bonus + 0 + 0 + 0 := rfl
  have h2 : bonusScore defaultWeights itemOther uiNissin [] = 0 + 0 + 0 + 0 := rfl
  rw [h1, h2]
  norm_num [defaultWeights]

theorem final_score_monotone_in_bonus_witness :
    (0 ≤ (3/20 : ℚ) ∧
        itemNissin.similarity_score = itemOther.similarity_score ∧
        bonusScore defaultWeights itemNissin uiNissin [] =
          bonusScore defaultWeights itemOther uiNissin [] + 3/20) ∧
      calculate_final_score defaultWeights itemOther uiNissin [] ≤
        calculate_final_score defaultWeights itemNissin uiNissin [] :=
  ⟨⟨by norm_num, by norm_num [itemNissin, itemOther], bonus_gap_nissin⟩,
    final_score_monotone_in_bonus defaultWeights itemOther itemNissin uiNissin [] (3/20)
      (by norm_num [defaultWeights]) (by norm_num [defaultWeights])
      (by norm_num [defaultWeights]) (by norm_num [defaultWeights])
      (by norm_num [defaultWeights]) (by norm_num [defaultWeights])
      (by norm_num [defaultWeights]) (by norm_num [defaultWeights])
      (by norm_num [defaultWeights]) (by norm_num)
      (by norm_num [itemNissin, itemOther]) bonus_gap_nissin⟩

/-- C3: the brand signal's total contribution to `bonus_score` is
either 0 or exactly `brand_bonus`, never more: the hint path and the
OCR fallback are mutually exclusive, and the fallback awards the bonus
at most once. -/
theorem brand_bonus_at_most_once (w : Weights) (item : Item) (ui : UserInputs)
    (texts : List String) :
    (brandPass w item ui texts).1 = 0 ∨ (brandPass w item ui texts).1 = w.brand_bonus :=
  brandPass_cases w item ui texts

/-! OCR match ratio bounds (C10) and tier boundaries (C4). -/

lemma fuzzyStep_fst_le (θ : ℚ) (st : Nat × List String) (dw : String) :
    (fuzzyStep θ st dw).1 ≤ st.1 + 1 :=
  by
  unfold fuzzyStep
  split
  · omega
  · rcases hf : st.2.find? (fun dbw =>
        decide (3 ≤ dbw.length) && decide (θ ≤ similarity dw dbw)) with _ | dbw <;>
      rw [hf] <;> simp

lemma fuzzy_fold_fst_le (θ : ℚ) :
    ∀ (l : List String) (st : Nat × List String),
      (l.foldl (fuzzyStep θ) st).1 ≤ st.1 + l.length :=
  by
  intro l
  induction l with
  | nil => intro st; simp
  | cons dw l ih =>
    intro st
    rw [List.foldl_cons]
    refine le_trans (ih _) ?_
    have := fuzzyStep_fst_le θ st dw
    simp only [List.length_cons]
    omega

lemma length_filter_partition {α : Type} (p : α → Bool) (l : List α) :
    (l.filter p).length + (l.filter (fun a => !(p a))).length = l.length :=
  by
  induction l with
  | nil => rfl
  | cons a l ih =>
    by_cases h : p a <;> simp [List.filter_cons, h] <;> omega

lemma ocrOverlap_le (w : Weights) (det db : List String) :
    ocrOverlap w det db ≤ max det.length db.length :=
  by
  unfold ocrOverlap fuzzyCount
  have h1 := fuzzy_fold_fst_le w.similarity_threshold
    (det.filter (fun x => !db.contains x)) (0, db.filter (fun x => !det.contains x))
  have h2 := length_filter_partition (fun x => db.contains x) det
  have h3 : det.length ≤ max det.length db.length := Nat.le_max_left _ _
  omega

lemma ocrRatio_bounds (w : Weights) (det db : List String)
    (h : ocrOverlap w det db ≤ max det.length db.length) :
    0 ≤ ocrRatio w det db ∧ ocrRatio w det db ≤ 100 :=
  by
  unfold ocrRatio
  split_ifs with ht
  · constructor
    · positivity
    · have h1 : (0 : ℚ) < ((max det.length db.length : Nat) : ℚ) := by exact_mod_cast ht
      have h2 : (ocrOverlap w det db : ℚ) ≤ ((max det.length db.length : Nat) : ℚ) := by
        exact_mod_cast h
      rw [div_mul_eq_mul_div, div_le_iff h1]
      nlinarith
  · norm_num

/-- C10: the match ratio returned by `_calculate_ocr_match_score` lies in
[0, 100]: the overlap count never exceeds the size of the larger token
set. -/
theorem ocr_match_ratio_in_range (w : Weights) (texts : List String) (item : Item) :
    0 ≤ (ocrMatch w texts item).1 ∧ (ocrMatch w texts item).1 ≤ 100 :=
  by
  unfold ocrMatch
  split_ifs with h
  · norm_num
  · simpa using ocrRatio_bounds w (toSet texts) (toSet (dbTexts item))
      (ocrOverlap_le w (toSet texts) (toSet (dbTexts item)))

/-- C4: with both token sets non-empty, a match ratio exactly equal to a
tier threshold is awarded that tier's bonus — each tier boundary is
inclusive on its lower side. -/
theorem ocr_tier_boundaries_inclusive (w : Weights) (texts : List String) (item : Item)
    (hdet : toSet texts ≠ []) (hdb : toSet (dbTexts item) ≠ [])
    (hord : (w.ocr_threshold_fair : ℚ) ≤ (w.ocr_threshold_good : ℚ)) :
    ((ocrMatch w texts item).1 = (w.ocr_threshold_good : ℚ) →
      (ocrMatch w texts item).2 = w.ocr_bonus_good) ∧
      ((ocrMatch w texts item).1 = (w.ocr_threshold_fair : ℚ) →
        (ocrMatch w texts item).1 < (w.ocr_threshold_good : ℚ) →
        (ocrMatch w texts item).2 = w.ocr_bonus_fair) ∧
      ((ocrMatch w texts item).1 = (w.ocr_threshold_minimum : ℚ) →
        (ocrMatch w texts item).1 < (w.ocr_threshold_fair : ℚ) →
        (ocrMatch w texts item).2 = w.ocr_bonus_poor) :=
  by
  unfold ocrMatch
  rw [if_neg (by simp [List.isEmpty_iff, hdet, hdb])]
  dsimp only
  refine ⟨?_, ?_, ?_⟩
  · intro h
    unfold ocrTier
    rw [if_pos (le_of_eq h.symm)]
  · intro h hlt
    unfold ocrTier
    rw [if_neg (not_le.mpr hlt), if_pos (le_of_eq h.symm)]
  · intro h hlt
    unfold ocrTier
    rw [if_neg (not_le.mpr (lt_of_lt_of_le hlt hord)), if_neg (not_le.mpr hlt),
      if_pos (le_of_eq h.symm)]

/-- Weight configuration equal to the defaults except that
`ocr_threshold_good` is 100. -/
def wGood100 : Weights :=
  ⟨0.3, 0.15, 0.15, 10, 30, 100, 0, 0.025, 0.05, 0.10, 0.05, 10, 20, 0.8⟩

/-- Candidate whose name is the single token "abc". -/
def itemAbc : Item := ⟨1/2, "", "abc", 0, []⟩

lemma ocr_ratio_abc :
    (ocrMatch wGood100 ["abc"] itemAbc).1 = (wGood100.ocr_threshold_good : ℚ) :=
  by
  unfold ocrMatch
  rw [if_neg (by decide)]
  dsimp only
  unfold ocrRatio
  rw [show ocrOverlap wGood100 (toSet ["abc"]) (toSet (dbTexts itemAbc)) = 1 from rfl]
  rw [show (toSet ["abc"]).length = 1 from rfl,
    show (toSet (dbTexts itemAbc)).length = 1 from rfl]
  norm_num [wGood100]

theorem ocr_tier_boundaries_inclusive_witness :
    (toSet ["abc"] ≠ [] ∧ toSet (dbTexts itemAbc) ≠ [] ∧
        (wGood100.ocr_threshold_fair : ℚ) ≤ (wGood100.ocr_threshold_good : ℚ)) ∧
      (ocrMatch wGood100 ["abc"] itemAbc).2 = wGood100.ocr_bonus_good :=
  ⟨⟨by decide, by decide, by norm_num [wGood100]⟩,
    (ocr_tier_boundaries_inclusive wGood100 ["abc"] itemAbc (by decide) (by decide)
        (by norm_num [wGood100])).1 ocr_ratio_abc⟩

/-! Ranking (C5). -/

lemma specLE_eq_enumLE : specLE = List.enumLE scoreLE :=
  by
  funext x y
  unfold specLE List.enumLE scoreLE
  rcases lt_trichotomy x.2.final_score y.2.final_score with h | h | h
  · simp [lt_asymm h, h.ne, not_le.mpr h, h.le]
  · simp [h]
  · simp [h, le_of_lt h, not_le.mpr h]

/-- C5: the ranking step is exactly the stable descending sort by
`final_score` truncated to the first 20 — equal scores keep their
original retrieval order (sorting the index-annotated list by
"score descending, then index ascending" gives the same output), and no
minimum-score cutoff is applied (the output length is
`min 20 (number of candidates)`). -/
theorem ranking_is_stable_sort_top20 (cs : List Scored) :
    rankCandidates cs = rankSpec cs ∧ (rankCandidates cs).length = min 20 cs.length :=
  by
  constructor
  · unfold rankCandidates rankSpec
    rw [specLE_eq_enumLE, List.mergeSort_enum]
  · unfold rankCandidates
    rw [List.length_take, List.length_mergeSort]

/-! Raw vector similarity (C6). -/

/-- C6 counterexample: cosine distance 3/2 lies in [0,2], but the
assigned raw similarity `1 − 3/2 = −1/2` does not lie in [0,1]. -/
theorem similarity_from_distance_not_in_unit :
    (0 ≤ (3/2 : ℚ) ∧ (3/2 : ℚ) ≤ 2) ∧
      ¬ (0 ≤ similarityFromDistance (3/2) ∧ similarityFromDistance (3/2) ≤ 1) :=
  by
  unfold similarityFromDistance
  norm_num

/-- C6 (amended): for a cosine distance in [0,2], the raw similarity
`1 − distance` lies in [−1, 1] (it is negative exactly when the distance
exceeds 1). -/
theorem similarity_from_distance_range (d : ℚ) (h0 : 0 ≤ d) (h2 : d ≤ 2) :
    -1 ≤ similarityFromDistance d ∧ similarityFromDistance d ≤ 1 :=
  by
  unfold similarityFromDistance
  constructor <;> linarith

theorem similarity_from_distance_range_witness :
    (0 ≤ (1/2 : ℚ) ∧ (1/2 : ℚ) ≤ 2) ∧
      -1 ≤ similarityFromDistance (1/2) ∧ similarityFromDistance (1/2) ≤ 1 :=
  ⟨⟨by norm_num, by norm_num⟩,
    similarity_from_distance_range (1/2) (by norm_num) (by norm_num)⟩

/-! The fuzzy matcher's range and (a)symmetry (C7). -/

/-- C7 (amended): the fuzzy matcher always returns a ratio in [0,1]; it
is case-insensitive by construction (both arguments are lowered), but it
is not symmetric in general — see
`similarity_not_symmetric_counterexample`. -/
theorem similarity_in_unit_interval (a b : String) :
    0 ≤ similarity a b ∧ similarity a b ≤ 1 :=
  similarity_mem_unit a b

lemma matches_ab_bacb :
    matchesIn (pyLower "ab").toList (pyLower "bacb").toList 0 2 0 4 = 2 :=
  by
  rw [matchesIn.eq_def]
  rw [show findLongestMatch (pyLower "ab").toList (pyLower "bacb").toList 0 2 0 4 =
      (0, 1, 1) from rfl]
  norm_num
  rw [matchesIn.eq_def]
  rw [show findLongestMatch (pyLower "ab").data (pyLower "bacb").data 1 2 2 4 =
      (1, 3, 1) from rfl]
  norm_num

lemma matches_bacb_ab :
    matchesIn (pyLower "bacb").toList (pyLower "ab").toList 0 4 0 2 = 1 :=
  by
  rw [matchesIn.eq_def]
  rw [show findLongestMatch (pyLower "bacb").toList (pyLower "ab").toList 0 4 0 2 =
      (0, 1, 1) from rfl]
  norm_num

lemma pyRatio_eval (la lb : List Char) (m x y : Nat)
    (hx : la.length = x) (hy : lb.length = y)
    (hm : matchesIn la lb 0 x 0 y = m) (h0 : 0 < x + y) :
    pyRatio la lb = 2 * (m : ℚ) / ((x + y : Nat) : ℚ) :=
  by
  unfold pyRatio
  rw [hx, hy, hm, if_pos h0]

lemma similarity_ab_bacb : similarity "ab" "bacb" = 2/3 :=
  by
  unfold similarity
  rw [pyRatio_eval (pyLower "ab").toList (pyLower "bacb").toList 2 2 4 rfl rfl
    matches_ab_bacb (by norm_num)]
  norm_num

lemma similarity_bacb_ab : similarity "bacb" "ab" = 1/3 :=
  by
  unfold similarity
  rw [pyRatio_eval (pyLower "bacb").toList (pyLower "ab").toList 1 4 2 rfl rfl
    matches_bacb_ab (by norm_num)]
  norm_num

/-- C7 counterexample: the fuzzy matcher is not symmetric.
`similarity("ab", "bacb") = 2/3` but `similarity("bacb", "ab") = 1/3`:
`SequenceMatcher`'s greedy matching depends on the argument order. -/
theorem similarity_not_symmetric_counterexample :
    similarity "ab" "bacb" ≠ similarity "bacb" "ab" :=
  by
  rw [similarity_ab_bacb, similarity_bacb_ab]
  norm_num

/-! The zero-target price hint (C8). -/

/-- Weight configuration equal to the defaults except that
`price_threshold_10pct` is 100 — still non-negative, as the spec's
weight invariant requires. -/
def wPrice100 : Weights :=
  ⟨0.3, 0.15, 0.15, 10, 30, 60, 0, 0.025, 0.05, 0.10, 0.05, 100, 20, 0.8⟩

/-- User hints with only the price hint "0". -/
def uiPrice0 : UserInputs := ⟨none, some "0", none⟩

/-- C8 counterexample: with the non-negative threshold configuration
`price_threshold_10pct = 100`, a price hint that parses to 0 yields
`ratio = 100 ≤ 100` and the price signal awards `price_bonus_10pct`,
contradicting "the price signal awards no bonus". -/
theorem price_zero_target_counterexample :
    (0 ≤ wPrice100.price_bonus_10pct ∧ 0 ≤ wPrice100.price_bonus_20pct ∧
        (0 : ℤ) ≤ wPrice100.price_threshold_10pct ∧
        (0 : ℤ) ≤ wPrice100.price_threshold_20pct) ∧
      pyInt "0" = some 0 ∧
      pricePass wPrice100 itemHalf uiPrice0 = wPrice100.price_bonus_10pct ∧
      wPrice100.price_bonus_10pct ≠ 0 :=
  by
  refine ⟨⟨by norm_num [wPrice100], by norm_num [wPrice100], by norm_num [wPrice100],
    by norm_num [wPrice100]⟩, rfl, ?_, by norm_num [wPrice100]⟩
  have h1 : pricePass wPrice100 itemHalf uiPrice0 =
      (if (100 : ℚ) ≤ (wPrice100.price_threshold_10pct : ℚ) then
        wPrice100.price_bonus_10pct
      else if (100 : ℚ) ≤ (wPrice100.price_threshold_20pct : ℚ) then
        wPrice100.price_bonus_20pct
      else 0) := rfl
  rw [h1, if_pos (by norm_num [wPrice100])]

/-- C8 (amended): whenever both price thresholds are below 100 (as in
the default configuration), a user price hint that parses to the integer
0 awards no price bonus — the ratio is treated as 100, which then fails
both tier tests. -/
theorem price_zero_target_no_bonus (w : Weights) (item : Item) (ui : UserInputs)
    (h10 : (w.price_threshold_10pct : ℚ) < 100) (h20 : (w.price_threshold_20pct : ℚ) < 100)
    (hs : truthy ui.price = true) (hp : pyInt (ui.price.getD "") = some 0) :
    pricePass w item ui = 0 :=
  by
  unfold pricePass
  simp only [hs, if_true]
  rw [hp]
  dsimp only
  have hz : ¬ ((0 : ℤ) > 0) := by norm_num
  rw [if_neg (by rw [if_neg hz]; exact not_le.mpr h10),
    if_neg (by rw [if_neg hz]; exact not_le.mpr h20)]

theorem price_zero_target_no_bonus_witness :
    ((defaultWeights.price_threshold_10pct : ℚ) < 100 ∧
        (defaultWeights.price_threshold_20pct : ℚ) < 100 ∧
        truthy uiPrice0.price = true ∧ pyInt (uiPrice0.price.getD "") = some 0) ∧
      pricePass defaultWeights itemHalf uiPrice0 = 0 :=
  ⟨⟨by norm_num [defaultWeights], by norm_num [defaultWeights], rfl, rfl⟩,
    price_zero_target_no_bonus defaultWeights itemHalf uiPrice0
      (by norm_num [defaultWeights]) (by norm_num [defaultWeights]) rfl rfl⟩

/-! The debug scorer vs the plain scorer (C9). -/

lemma ite_pos_of_nonneg (x : ℚ) (h : 0 ≤ x) : (if x > 0 then x else 0) = x :=
  by
  rcases lt_or_eq_of_le h with h1 | h1
  · rw [if_pos h1]
  · rw [if_neg (by rw [← h1]; exact lt_irrefl 0)]
    exact h1

/-- C9 (amended): with non-negative OCR tier bonuses (the spec's weight
invariant), the score returned by `calculate_score_with_debug` equals
`calculate_final_score` on every input: the debug variant only skips
adding the OCR bonus when it is not positive, which then adds zero
either way. -/
theorem debug_score_eq_plain (w : Weights) (item : Item) (ui : UserInputs)
    (texts : List String)
    (hp : 0 ≤ w.ocr_bonus_poor) (hf : 0 ≤ w.ocr_bonus_fair) (hg : 0 ≤ w.ocr_bonus_good) :
    (calculate_score_with_debug w item ui texts).1 = calculate_final_score w item ui texts :=
  by
  unfold calculate_score_with_debug calculate_final_score bonusScore debugOcrAdd
  dsimp only
  have h : (if texts.isEmpty then (0 : ℚ)
      else if (ocrMatch w texts item).2 > 0 then (ocrMatch w texts item).2 else 0) =
      (if texts.isEmpty then 0 else (ocrMatch w texts item).2) := by
    split
    · rfl
    · exact ite_pos_of_nonneg _ (ocrMatch_snd_nonneg w texts item hp hf hg)
  rw [h]

theorem debug_score_eq_plain_witness :
    (0 ≤ defaultWeights.ocr_bonus_poor ∧ 0 ≤ defaultWeights.ocr_bonus_fair ∧
        0 ≤ defaultWeights.ocr_bonus_good) ∧
      (calculate_score_with_debug defaultWeights itemHalf uiNone []).1 =
        calculate_final_score defaultWeights itemHalf uiNone [] :=
  ⟨⟨by norm_num [defaultWeights], by norm_num [defaultWeights],
      by norm_num [defaultWeights]⟩,
    debug_score_eq_plain defaultWeights itemHalf uiNone []
      (by norm_num [defaultWeights]) (by norm_num [defaultWeights])
      (by norm_num [defaultWeights])⟩

/-- Weight configuration equal to the defaults except for a negative
`ocr_bonus_poor` of −1 (accepted by `_get_float`, which parses any
float). -/
def wNegOcr : Weights :=
  ⟨0.3, 0.15, 0.15, 10, 30, 60, -1, 0.025, 0.05, 0.10, 0.05, 10, 20, 0.8⟩

/-- Candidate whose name has five tokens, one of which ("a1") is also
the detected token, putting the OCR match ratio at 20% — the poor
tier. -/
def itemNeg : Item := ⟨1/2, "", "a1 a2 a3 a4 a5", 0, []⟩

lemma ocr_ratio_neg :
    ocrRatio wNegOcr (toSet ["a1"]) (toSet (dbTexts itemNeg)) = 20 :=
  by
  unfold ocrRatio
  rw [show ocrOverlap wNegOcr (toSet ["a1"]) (toSet (dbTexts itemNeg)) = 1 from rfl]
  rw [show (toSet ["a1"]).length = 1 from rfl,
    show (toSet (dbTexts itemNeg)).length = 5 from rfl]
  rw [show (max 1 5 : Nat) = 5 from rfl]
  norm_num

lemma ocr_match_neg : ocrMatch wNegOcr ["a1"] itemNeg = (20, wNegOcr.ocr_bonus_poor) :=
  by
  unfold ocrMatch
  rw [if_neg (by decide)]
  rw [ocr_ratio_neg]
  unfold ocrTier
  rw [if_neg (by norm_num [wNegOcr]), if_neg (by norm_num [wNegOcr]),
    if_pos (by norm_num [wNegOcr])]

/-- C9 counterexample: with `ocr_bonus_poor = −1` and a candidate in the
poor OCR tier, `calculate_final_score` adds the negative OCR bonus but
`calculate_score_with_debug` skips it (`if ocr_bonus > 0`), so the two
scores differ on this input. -/
theorem debug_score_ne_plain_counterexample :
    (calculate_score_with_debug wNegOcr itemNeg uiNone ["a1"]).1 ≠
      calculate_final_score wNegOcr itemNeg uiNone ["a1"] :=
  by
  have hb : (brandPass wNegOcr itemNeg uiNone ["a1"]).1 = 0 := rfl
  have hn : (namePass wNegOcr itemNeg uiNone ["a1"]).1 = 0 + wNegOcr.name_bonus := rfl
  have hpr : pricePass wNegOcr itemNeg uiNone = 0 := rfl
  have hd : (calculate_score_with_debug wNegOcr itemNeg uiNone ["a1"]).1 =
      normalizeScore wNegOcr (1/2) ((0 + (0 + wNegOcr.name_bonus)) + 0 + 0) := by
    unfold calculate_score_with_debug debugOcrAdd
    dsimp only
    rw [hb, hn, hpr, show (["a1"] : List String).isEmpty = false from rfl]
    rw [ocr_match_neg]
    rw [if_neg (by norm_num), if_neg (by norm_num [wNegOcr])]
    rfl
  have hp : calculate_final_score wNegOcr itemNeg uiNone ["a1"] =
      normalizeScore wNegOcr (1/2) ((0 + (0 + wNegOcr.name_bonus)) + 0 +
        wNegOcr.ocr_bonus_poor) := by
    unfold calculate_final_score bonusScore
    rw [hb, hn, hpr, show (["a1"] : List String).isEmpty = false from rfl]
    rw [if_neg (by norm_num), ocr_match_neg]
    rfl
  rw [hd, hp]
  unfold normalizeScore Weights.max_bonus
  norm_num [wNegOcr]

end MonoLog
